import Mathlib

/-!
Verification of the ChatBattery formula-extraction core.

This file gives a shallow embedding, over `List Char`, of the
formula-extraction and normalization pipeline of
`src/ChatBattery/LLM_agent.py` (`_clean_formula_candidate`, `parse`,
`optimize_batteries_chatgpt`), of the decision logic of
`src/ChatBattery/decision_agent.py` (`decide_one_pair`, `decide_pairs`),
and of the remote novelty lookup of `src/ChatBattery/search_agent.py`
(`MP_search`), and proves the specified properties about them.

Embedding conventions:
- strings are `List Char`; Python regular expressions are embedded as
  structurally recursive scanners with the same matching semantics on the
  inputs the code handles (left-to-right, non-overlapping matches);
- Python whitespace (`str.strip`, the regex class `\s`) is embedded as the
  ASCII whitespace characters space, tab, newline, carriage return,
  vertical tab and form feed;
- external collaborators (the chat model, the chemistry oracle
  `Domain_Agent.calculate_theoretical_capacity`, the Materials Project
  lookup) are parameters of the embedded functions; fallible collaborators
  return `Except Unit`;
- Python floats used as capacities are embedded as rationals, with
  `Option` capturing the not-a-number sentinel `float("nan")`.
-/

/-! ## Character classes -/

/-- ASCII whitespace, embedding Python `str.strip()` and the regex `\s`. -/
def isSpaceChar (c : Char) : Bool :=
  decide (c = ' ' ∨ c = '\t' ∨ c = '\n' ∨ c = '\r' ∨ c = Char.ofNat 11 ∨ c = Char.ofNat 12)

/-- The backtick character, stripped by `_clean_formula_candidate`. -/
def isTickChar (c : Char) : Bool :=
  decide (c = Char.ofNat 96)

def isUpperChar (c : Char) : Bool :=
  decide ('A' ≤ c ∧ c ≤ 'Z')

def isLowerChar (c : Char) : Bool :=
  decide ('a' ≤ c ∧ c ≤ 'z')

def isDigitChar (c : Char) : Bool :=
  decide ('0' ≤ c ∧ c ≤ '9')

/-- `[a-zA-Z]`, the letters of a LaTeX command in the regex `\\[a-zA-Z]+`. -/
def isAsciiAlpha (c : Char) : Bool :=
  isUpperChar c || isLowerChar c

/-- The regex word class `\w` restricted to ASCII, for `\b` boundaries. -/
def isWordChar (c : Char) : Bool :=
  isAsciiAlpha c || isDigitChar c || decide (c = '_')

/-- The middle dot `·` (U+00B7) that replaces a LaTeX `\cdot`. -/
def middleDot : Char := Char.ofNat 183

/-- The character class kept by the final cleanup step of
`_clean_formula_candidate`: `[A-Za-z0-9\.\(\)\[\]/·]`. -/
def isAllowed (c : Char) : Bool :=
  decide (('A' ≤ c ∧ c ≤ 'Z') ∨ ('a' ≤ c ∧ c ≤ 'z') ∨ ('0' ≤ c ∧ c ≤ '9') ∨
    c = '.' ∨ c = '(' ∨ c = ')' ∨ c = '[' ∨ c = ']' ∨ c = '/' ∨ c = Char.ofNat 183)

/-- ASCII lowercasing, embedding the case folding of `re.IGNORECASE` on the
ASCII pattern `reasoning`. -/
def lowerChar (c : Char) : Char :=
  if isUpperChar c then Char.ofNat (c.toNat + 32) else c

/-! ## Generic text helpers -/

/-- Python `str.strip` with the character class `p`: drop the matching
characters from both ends. -/
def stripEnds (p : Char → Bool) (l : List Char) : List Char :=
  ((l.dropWhile p).reverse.dropWhile p).reverse

/-- Python `str.replace(ab, "")` for a two-character pattern `[a, b]`:
remove the non-overlapping occurrences, scanning left to right.  Embeds
`.replace("**", "")` and `.replace("__", "")`. -/
def replacePairAll (a b : Char) : List Char → List Char
  | [] => []
  | [x] => [x]
  | x :: y :: r =>
    if x = a ∧ y = b then replacePairAll a b r
    else x :: replacePairAll a b (y :: r)

/-- Whether `p` is a (list) prefix of `l`, embedding Python `startswith`. -/
def listStartsWith (p l : List Char) : Bool :=
  decide (l.take p.length = p)

/-- Whether `p` occurs as a contiguous substring of `l`, embedding the
Python `in` operator on strings. -/
def containsSub (p : List Char) : List Char → Bool
  | [] => decide (p = [])
  | c :: r => listStartsWith p (c :: r) || containsSub p r

/-! ## The regex scanners of `_clean_formula_candidate` and `parse` -/

/-- State of the `re.findall(r"\$([^$]+)\$", text)` scanner: `none` when
outside a math span, `some acc` when inside one with reversed content
`acc`. -/
def chunksAux : Option (List Char) → List Char → List (List Char)
  | _, [] => []
  | none, c :: r => if c = '$' then chunksAux (some []) r else chunksAux none r
  | some acc, c :: r =>
    if c = '$' then
      if acc = [] then chunksAux (some []) r
      else acc.reverse :: chunksAux none r
    else chunksAux (some (c :: acc)) r

/-- `re.findall(r"\$([^$]+)\$", text)`: the contents of the non-empty,
non-overlapping `$...$` spans, left to right. -/
def dollarChunks (l : List Char) : List (List Char) :=
  chunksAux none l

/-- Python `max(chunks, key=len)`: the first element of maximal length. -/
def maxByLen : List (List Char) → List Char
  | [] => []
  | [x] => x
  | x :: y :: r =>
    if (maxByLen (y :: r)).length > x.length then maxByLen (y :: r) else x

/-- State of the `text.replace("\cdot", "·")` scanner: how much of the
five-character pattern backslash, c, d, o, t has been matched. -/
inductive CdSt
  | n
  | s1
  | s2
  | s3
  | s4

/-- Scanner for `text.replace("\cdot", "·")`: on a full match emit the
middle dot; on a mismatch emit the partially matched characters and
rescan the mismatching character (a new match can only start at a
backslash, which the partial pattern tail never contains). -/
def cdAux : CdSt → List Char → List Char
  | CdSt.n, [] => []
  | CdSt.s1, [] => ['\\']
  | CdSt.s2, [] => ['\\', 'c']
  | CdSt.s3, [] => ['\\', 'c', 'd']
  | CdSt.s4, [] => ['\\', 'c', 'd', 'o']
  | CdSt.n, x :: r =>
    if x = '\\' then cdAux CdSt.s1 r else x :: cdAux CdSt.n r
  | CdSt.s1, x :: r =>
    if x = 'c' then cdAux CdSt.s2 r
    else if x = '\\' then '\\' :: cdAux CdSt.s1 r
    else '\\' :: x :: cdAux CdSt.n r
  | CdSt.s2, x :: r =>
    if x = 'd' then cdAux CdSt.s3 r
    else if x = '\\' then '\\' :: 'c' :: cdAux CdSt.s1 r
    else '\\' :: 'c' :: x :: cdAux CdSt.n r
  | CdSt.s3, x :: r =>
    if x = 'o' then cdAux CdSt.s4 r
    else if x = '\\' then '\\' :: 'c' :: 'd' :: cdAux CdSt.s1 r
    else '\\' :: 'c' :: 'd' :: x :: cdAux CdSt.n r
  | CdSt.s4, x :: r =>
    if x = 't' then middleDot :: cdAux CdSt.n r
    else if x = '\\' then '\\' :: 'c' :: 'd' :: 'o' :: cdAux CdSt.s1 r
    else '\\' :: 'c' :: 'd' :: 'o' :: x :: cdAux CdSt.n r

/-- `text.replace("\cdot", "·")`. -/
def replaceCdot (l : List Char) : List Char :=
  cdAux CdSt.n l

/-- State of the `re.sub(r"\\[a-zA-Z]+", "", text)` scanner: `n` ordinary
text, `b` directly after an unresolved backslash, `l` inside the letters
of a command being removed. -/
inductive RmState
  | n
  | b
  | l

/-- `re.sub(r"\\[a-zA-Z]+", "", text)`: remove each backslash that is
followed by at least one ASCII letter together with the letters that
follow it; a backslash not followed by a letter stays. -/
def rmCmdAux : RmState → List Char → List Char
  | RmState.n, [] => []
  | RmState.b, [] => ['\\']
  | RmState.l, [] => []
  | RmState.n, c :: r =>
    if c = '\\' then rmCmdAux RmState.b r else c :: rmCmdAux RmState.n r
  | RmState.b, c :: r =>
    if isAsciiAlpha c then rmCmdAux RmState.l r
    else if c = '\\' then '\\' :: rmCmdAux RmState.b r
    else '\\' :: c :: rmCmdAux RmState.n r
  | RmState.l, c :: r =>
    if isAsciiAlpha c then rmCmdAux RmState.l r
    else if c = '\\' then rmCmdAux RmState.b r
    else c :: rmCmdAux RmState.n r

/-- State of the `re.sub(r"_\{([^}]+)\}", r"\1", text)` scanner: `n`
ordinary text, `u` directly after an underscore, `b acc` inside `_{`
with reversed span content `acc`. -/
inductive SubSt
  | n
  | u
  | b (acc : List Char)

/-- `re.sub(r"_\{([^}]+)\}", r"\1", text)`: rewrite each braced subscript
`_{content}` (non-empty content without `}`) to `content`. -/
def subBr : SubSt → List Char → List Char
  | SubSt.n, [] => []
  | SubSt.u, [] => ['_']
  | SubSt.b acc, [] => '_' :: '{' :: acc.reverse
  | SubSt.n, c :: r =>
    if c = '_' then subBr SubSt.u r else c :: subBr SubSt.n r
  | SubSt.u, c :: r =>
    if c = '{' then subBr (SubSt.b []) r
    else if c = '_' then '_' :: subBr SubSt.u r
    else '_' :: c :: subBr SubSt.n r
  | SubSt.b acc, c :: r =>
    if c = '}' then
      if acc = [] then '_' :: '{' :: '}' :: subBr SubSt.n r
      else acc.reverse ++ subBr SubSt.n r
    else subBr (SubSt.b (c :: acc)) r

/-- `re.sub(r"_([0-9]+(?:\.[0-9]+)?)", r"\1", text)`: since the
replacement is the captured number itself, this deletes every underscore
that is directly followed by a digit. -/
def subBareSubscript : List Char → List Char
  | [] => []
  | [c] => [c]
  | c :: d :: r =>
    if c = '_' ∧ isDigitChar d then d :: subBareSubscript r
    else c :: subBareSubscript (d :: r)

/-! ## `_clean_formula_candidate` (LLM_agent.py lines 56-100) -/

/-- Step 2 of `_clean_formula_candidate`:
`text.replace("**", "").replace("__", "").strip("'`'").strip()`. -/
def cleanEmphasis (t : List Char) : List Char :=
  stripEnds isSpaceChar (stripEnds isTickChar (replacePairAll '_' '_' (replacePairAll '*' '*' t)))

/-- Step 3 of `_clean_formula_candidate`: if `$` occurs, keep the longest
`$...$` span (first on ties), or drop all `$` when no span matches. -/
def cleanMath (t : List Char) : List Char :=
  if '$' ∈ t then
    if dollarChunks t = [] then t.filter (fun c => decide (c ≠ '$'))
    else maxByLen (dollarChunks t)
  else t

/-- `text.replace("{", "").replace("}", "")`. -/
def cleanBraces (t : List Char) : List Char :=
  t.filter (fun c => decide (c ≠ '{') && decide (c ≠ '}'))

/-- `re.sub(r"\s+", "", text)`: remove all whitespace. -/
def cleanSpace (t : List Char) : List Char :=
  t.filter (fun c => ! isSpaceChar c)

/-- `re.sub(r"[^A-Za-z0-9\.\(\)\[\]/·]", "", text)`: keep only the allowed
formula characters. -/
def cleanKeepAllowed (t : List Char) : List Char :=
  t.filter isAllowed

/-- `_clean_formula_candidate` (LLM_agent.py lines 56-100): normalize one
candidate segment from markdown/LaTeX to a plain-text formula. -/
def cleanFormulaCandidate (s : List Char) : List Char :=
  if stripEnds isSpaceChar s = [] then []
  else
    cleanKeepAllowed (cleanSpace (cleanBraces (subBareSubscript (subBr SubSt.n
      (rmCmdAux RmState.n (replaceCdot (cleanMath (cleanEmphasis
        (stripEnds isSpaceChar s)))))))))

/-! ## `parse` (LLM_agent.py lines 103-158) -/

/-- Python `"a\nb".split("\n")`: split at each newline, keeping empty
pieces, so the result is never empty. -/
def splitLines : List Char → List (List Char)
  | [] => [[]]
  | c :: r =>
    if c = '\n' then [] :: splitLines r
    else (c :: (splitLines r).headD []) :: (splitLines r).tail

/-- The matcher for the word `reasoning` at the head of a list under
`re.IGNORECASE`: `some rest` when the nine case-folded characters match,
with `rest` the remaining input. -/
def matchReasoning : List Char → List Char → Option (List Char)
  | [], rest => some rest
  | _ :: _, [] => none
  | p :: ps, c :: cs => if lowerChar c = p then matchReasoning ps cs else none

/-- Whether `\breasoning\b` (ignoring case) matches at the head of `l`:
the word matches and the following character, if any, is not a word
character. -/
def reasoningHere (l : List Char) : Bool :=
  match matchReasoning ['r', 'e', 'a', 's', 'o', 'n', 'i', 'n', 'g'] l with
  | none => false
  | some [] => true
  | some (d :: _) => ! isWordChar d

/-- Scanner for `re.search(r"\breasoning\b", line, re.IGNORECASE)`:
`prev` is the character before the current position (`none` at the start
of the line), giving the left word boundary. -/
def reasoningFrom : Option Char → List Char → Bool
  | _, [] => false
  | prev, c :: r =>
    ((match prev with
      | none => true
      | some d => ! isWordChar d) && reasoningHere (c :: r))
    || reasoningFrom (some c) r

/-- `re.search(r"\breasoning\b", line, flags=re.IGNORECASE)` as a Bool. -/
def hasReasoning (l : List Char) : Bool :=
  reasoningFrom none l

/-- `re.findall(r"[A-Z][a-z]?", candidate)` counted: the number of
non-overlapping element-like tokens, an uppercase letter optionally
followed by one lowercase letter. -/
def countElems : List Char → Nat
  | [] => 0
  | [c] => if isUpperChar c then 1 else 0
  | c :: d :: r =>
    if isUpperChar c then
      if isLowerChar d then 1 + countElems r else 1 + countElems (d :: r)
    else countElems (d :: r)

/-- The literal role marker `Assistant:` stripped by `parse`. -/
def assistantTag : List Char :=
  String.toList "Assistant:"

/-- The candidate-acceptance filters of `parse` (LLM_agent.py lines
139-156), applied to an already-cleaned candidate: reject the empty
string, candidates without `Li` or `Na`, candidates with fewer than two
element-like tokens, candidates already in the history, and in-batch
duplicates; otherwise append. -/
def candOK (history record : List (List Char)) (candidate : List Char) : List (List Char) :=
  if candidate = [] then record
  else if containsSub ['L', 'i'] candidate = false ∧ containsSub ['N', 'a'] candidate = false then
    record
  else if countElems candidate < 2 then record
  else if candidate ∈ history then record
  else if candidate ∈ record then record
  else record ++ [candidate]

/-- One segment of a bullet body: clean it, then run the acceptance
filters. -/
def acceptSeg (history record : List (List Char)) (seg : List Char) : List (List Char) :=
  candOK history record (cleanFormulaCandidate seg)

/-- The `Assistant:` strip step of `parse`: when the line starts with the
marker, drop it (Python `replace("Assistant:", "", 1)` on such a line)
and strip whitespace again. -/
def lineAfterTag (line1 : List Char) : List Char :=
  if listStartsWith assistantTag line1 then
    stripEnds isSpaceChar (line1.drop assistantTag.length)
  else line1

/-- `line.lstrip("*").strip()`: the bullet body. -/
def bulletBody (line : List Char) : List Char :=
  stripEnds isSpaceChar (line.dropWhile (fun c => decide (c = '*')))

/-- The segment list of a bullet body: the `$...$` spans when any exist,
otherwise the whole body. -/
def lineSegments (body : List Char) : List (List Char) :=
  if dollarChunks body = [] then [body] else dollarChunks body

/-- The per-line step of `parse` (LLM_agent.py lines 113-156): strip the
line, skip blank lines, strip a leading `Assistant:`, keep only bullet
lines, skip reasoning bullets and blank bodies, and fold the acceptance
step over the body's segments. -/
def parseLine (history : List (List Char)) (record : List (List Char)) (rawLine : List Char) : List (List Char) :=
  if stripEnds isSpaceChar rawLine = [] then record
  else if listStartsWith ['*'] (lineAfterTag (stripEnds isSpaceChar rawLine)) = false then record
  else if hasReasoning (lineAfterTag (stripEnds isSpaceChar rawLine)) then record
  else if bulletBody (lineAfterTag (stripEnds isSpaceChar rawLine)) = [] then record
  else
    (lineSegments (bulletBody (lineAfterTag (stripEnds isSpaceChar rawLine)))).foldl
      (acceptSeg history) record

/-- `parse` (LLM_agent.py lines 103-158): extract the candidate formulas
of a raw model response, skipping reasoning bullets, normalizing each
segment, and filtering against the history and the batch so far. -/
def parse (rawText : List Char) (history : List (List Char)) : List (List Char) :=
  (splitLines (stripEnds isSpaceChar rawText)).foldl (parseLine history) []

/-! ## `Decision_Agent` (decision_agent.py)

The chemistry oracle `Domain_Agent.calculate_theoretical_capacity` is an
external collaborator: it is passed in as a function returning
`Except Unit Rat` (`Except.error` embeds a raised exception). -/

/-- A capacity oracle: formula and task id to capacity, or a fault. -/
def CapacityOracle : Type :=
  List Char → Int → Except Unit Rat

/-- `Decision_Agent.decide_one_pair` (decision_agent.py lines 6-19): an
invalid task id raises; a fault on the baseline propagates; a fault on
the candidate is caught, recording capacity not-a-number (`none`) and
verdict `false`; otherwise the verdict is `output_value > input_value * 1`. -/
def decide_one_pair (capacity : CapacityOracle) (input_formula output_formula : List Char)
    (task_id : Int) : Except Unit (Rat × Option Rat × Bool) :=
  if task_id ≠ 101 ∧ task_id ≠ 102 then Except.error ()
  else
    match capacity input_formula task_id with
    | Except.error e => Except.error e
    | Except.ok input_value =>
      match capacity output_formula task_id with
      | Except.error _ => Except.ok (input_value, none, false)
      | Except.ok output_value =>
        Except.ok (input_value, some output_value, decide (output_value > input_value * 1))

/-- `Decision_Agent.decide_pairs` (decision_agent.py lines 21-27): one
record `(output_formula, output_value, answer)` per candidate, in input
order; an exception from `decide_one_pair` propagates. -/
def decide_pairs (capacity : CapacityOracle) (input_formula : List Char)
    (output_formula_list : List (List Char)) (task_id : Int) :
    Except Unit (List (List Char × Option Rat × Bool)) :=
  match output_formula_list with
  | [] => Except.ok []
  | o :: rest =>
    match decide_one_pair capacity input_formula o task_id with
    | Except.error e => Except.error e
    | Except.ok (_, output_value, answer) =>
      match decide_pairs capacity input_formula rest task_id with
      | Except.error e => Except.error e
      | Except.ok l => Except.ok ((o, output_value, answer) :: l)

/-- The record `decide_pairs` produces for one candidate, given the
baseline capacity `b`: used to state that the batch result is a `map`
over the candidates. -/
def pairRecord (capacity : CapacityOracle) (task_id : Int) (b : Rat) (o : List Char) :
    List Char × Option Rat × Bool :=
  match capacity o task_id with
  | Except.error _ => (o, none, false)
  | Except.ok c => (o, some c, decide (c > b * 1))

/-! ## `Search_Agent.MP_search` (search_agent.py lines 18-27)

The Materials Project lookup is an external collaborator: it returns the
list of matching records, or a fault. -/

/-- `Search_Agent.MP_search`: `len(docs) >= 1` on success, `False` on any
fault in the lookup. -/
def MP_search (lookup : List Char → Except Unit (List Unit)) (formula : List Char) : Bool :=
  match lookup formula with
  | Except.error _ => false
  | Except.ok docs => decide (1 ≤ docs.length)

/-! ## The generation loop `optimize_batteries_chatgpt`
(LLM_agent.py lines 189-235)

The model call is a collaborator, embedded as a stream
`responses : Nat → List Char` giving the text of the n-th call.  The
retry loop is unbounded in the code; it is embedded with a fuel
parameter, `none` meaning the fuel ran out before a candidate was
accepted.  A conversation is the list of its messages' contents (roles
play no part in the loop). -/

/-- The outcome of the loop: how many model calls were made, the raw text
and candidate list returned, and the conversation as mutated. -/
structure LoopResult where
  calls : Nat
  rawText : List Char
  batteries : List (List Char)
  conversation : List (List Char)

/-- `messages[-1]["content"] += suffix`: rewrite the last message. -/
def updateLast (f : List Char → List Char) : List (List Char) → List (List Char)
  | [] => []
  | [m] => [f m]
  | m :: ms => m :: updateLast f ms

/-- Python `repr` of a list of strings, as `"{}".format(lst)` prints it:
`[]`, or `['a', 'b']`. -/
def pyListRepr (l : List (List Char)) : List Char :=
  '[' :: (List.intercalate [',', ' '] (l.map (fun s => Char.ofNat 39 :: (s ++ [Char.ofNat 39]))) ++ [']'])

/-- The exclusion instruction appended to the trailing message:
`"Please do not generate batteries in this list {}.".format(lst)`. -/
def exclusionTextFor (l : List (List Char)) : List Char :=
  String.toList "Please do not generate batteries in this list " ++ pyListRepr l ++ ['.']

/-- One round of the `while not received` loop (LLM_agent.py lines
198-234): call the model, parse with the history list, and either accept
(non-empty result) or append the exclusion instruction naming
`parse(raw, [])` to the trailing message and retry.  `history` embeds
`history_battery_list`, which the code initializes to `[]` and never
appends to; `callIdx` counts the model calls already made. -/
def loopAux (responses : Nat → List Char) (history : List (List Char)) :
    List (List Char) → Nat → Nat → Option LoopResult
  | _, _, 0 => none
  | messages, callIdx, fuel + 1 =>
    if parse (responses callIdx) history = [] then
      loopAux responses history
        (updateLast (fun m => m ++ exclusionTextFor (parse (responses callIdx) [])) messages)
        (callIdx + 1) fuel
    else
      some ⟨callIdx + 1, responses callIdx, parse (responses callIdx) history, messages⟩

/-- `optimize_batteries_chatgpt`: the loop entered with
`history_battery_list = []` (LLM_agent.py line 196). -/
def optimize_batteries_chatgpt (responses : Nat → List Char) (messages : List (List Char))
    (fuel : Nat) : Option LoopResult :=
  loopAux responses [] messages 0 fuel

/-- The same loop with the exclusion instruction built from the empty
list instead of from `parse(raw, [])`: the comparison point for the
refinement claim that the embedded exclusion list is always empty. -/
def loopAuxExclEmpty (responses : Nat → List Char) :
    List (List Char) → Nat → Nat → Option LoopResult
  | _, _, 0 => none
  | messages, callIdx, fuel + 1 =>
    if parse (responses callIdx) [] = [] then
      loopAuxExclEmpty responses
        (updateLast (fun m => m ++ exclusionTextFor []) messages)
        (callIdx + 1) fuel
    else
      some ⟨callIdx + 1, responses callIdx, parse (responses callIdx) [], messages⟩

/-! ## Model-id resolution and request shape
(LLM_agent.py lines 170-187 and 198-212)

Only the parts of the request that the claims mention are embedded: the
resolved model identifier and whether the request carries
`frequency_penalty`.  The OpenRouter prefix normalization depends on
ambient environment configuration and is orthogonal to both. -/

/-- The shape of one `openai.ChatCompletion.create` request as built by
`optimize_batteries_chatgpt`: the model id passed and whether the
`frequency_penalty=0.2` parameter is present. -/
structure ChatRequest where
  model : List Char
  hasFrequencyPenalty : Bool

/-- The nickname table of `LLM_Agent.optimize_batteries` (lines 170-187):
the four chatgpt nicknames map to provider model ids, the three
open-source nicknames do not issue a chat request (`none`), and any
other value passes through unchanged. -/
def resolveLLMType (t : List Char) : Option (List Char) :=
  if t = String.toList "chatgpt_3.5" then some (String.toList "gpt-3.5-turbo")
  else if t = String.toList "chatgpt_o1" then some (String.toList "o1-mini")
  else if t = String.toList "chatgpt_o3" then some (String.toList "o3-mini")
  else if t = String.toList "chatgpt_4o" then some (String.toList "gpt-4o-mini")
  else if t = String.toList "llama2" ∨ t = String.toList "llama3" ∨ t = String.toList "qwen" then
    none
  else some t

/-- The request `optimize_batteries_chatgpt` builds for a given `model`
argument (lines 200-212): `frequency_penalty` is included exactly when
`model == "chatgpt_3.5"`. -/
def chatRequestFor (model : List Char) : ChatRequest :=
  ⟨model, decide (model = String.toList "chatgpt_3.5")⟩

/-- The chat request issued when `LLM_Agent.optimize_batteries` is called
with the selector `t`, when that path issues one. -/
def optimize_batteries_request (t : List Char) : Option ChatRequest :=
  (resolveLLMType t).map chatRequestFor

/-! ## Concrete inputs for the end-to-end scenarios -/

/-- Scenario input: a reasoning bullet followed by a LaTeX formula bullet. -/
def scenarioOneInput : List Char :=
  String.toList "* Reasoning: contains PO_4\n* $Li_{1.02}Fe_{0.70}Mn_{0.25}Mg_{0.05}PO_4$"

/-- The formula scenario one extracts. -/
def scenarioOneFormula : List Char :=
  String.toList "Li1.02Fe0.70Mn0.25Mg0.05PO4"

/-- Scenario input: an anion-only fragment. -/
def scenarioAnionInput : List Char :=
  String.toList "* $PO_4$"

/-! ## Character facts

Characters kept by the final cleanup filter are never special to any
earlier cleanup step: they are not whitespace, not backticks, and not
`$`, `\`, `_`, `*`, `{` or `}`. -/

lemma allowed_space_false (c : Char) (h : isAllowed c = true) : isSpaceChar c = false := by
  cases hs : isSpaceChar c with
  | false => rfl
  | true =>
    exfalso
    simp only [isSpaceChar, decide_eq_true_eq] at hs
    rcases hs with rfl | rfl | rfl | rfl | rfl | rfl <;> revert h <;> decide

lemma allowed_tick_false (c : Char) (h : isAllowed c = true) : isTickChar c = false := by
  cases hs : isTickChar c with
  | false => rfl
  | true =>
    exfalso
    simp only [isTickChar, decide_eq_true_eq] at hs
    subst hs
    revert h
    decide

lemma allowed_ne_dollar (c : Char) (h : isAllowed c = true) : c ≠ '$' := by
  intro e; subst e; revert h; decide

lemma allowed_ne_backslash (c : Char) (h : isAllowed c = true) : c ≠ '\\' := by
  intro e; subst e; revert h; decide

lemma allowed_ne_underscore (c : Char) (h : isAllowed c = true) : c ≠ '_' := by
  intro e; subst e; revert h; decide

lemma allowed_ne_star (c : Char) (h : isAllowed c = true) : c ≠ '*' := by
  intro e; subst e; revert h; decide

lemma allowed_ne_lbrace (c : Char) (h : isAllowed c = true) : c ≠ '{' := by
  intro e; subst e; revert h; decide

lemma allowed_ne_rbrace (c : Char) (h : isAllowed c = true) : c ≠ '}' := by
  intro e; subst e; revert h; decide

/-! ## Identity of each cleanup step on already-clean text -/

lemma dropWhile_id (p : Char → Bool) (l : List Char) (h : ∀ c ∈ l, p c = false) :
    l.dropWhile p = l := by
  cases l with
  | nil => rfl
  | cons a r =>
    rw [List.dropWhile_cons, h a (List.mem_cons_self a r)]
    simp

lemma stripEnds_id (p : Char → Bool) (l : List Char) (h : ∀ c ∈ l, p c = false) :
    stripEnds p l = l := by
  unfold stripEnds
  rw [dropWhile_id p l h,
    dropWhile_id p l.reverse (fun c hc => h c (List.mem_reverse.mp hc)),
    List.reverse_reverse]

lemma replacePairAll_id (a b : Char) :
    ∀ (l : List Char), (∀ c ∈ l, c ≠ a) → replacePairAll a b l = l
  | [], _ => rfl
  | [_], _ => rfl
  | x :: y :: r, h => by
    have hx : ¬(x = a ∧ y = b) := fun e => h x (List.mem_cons_self x (y :: r)) e.1
    have hr := replacePairAll_id a b (y :: r) (fun c hc => h c (List.mem_cons_of_mem x hc))
    simp only [replacePairAll]
    rw [if_neg hx, hr]

lemma cdAux_id (l : List Char) (h : ∀ c ∈ l, c ≠ '\\') : cdAux CdSt.n l = l := by
  induction l with
  | nil => rfl
  | cons c r ih =>
    have hc : ¬ c = '\\' := h c (List.mem_cons_self c r)
    have hr := ih (fun d hd => h d (List.mem_cons_of_mem c hd))
    simp only [cdAux]
    rw [if_neg hc, hr]

lemma rmCmdAux_id (l : List Char) (h : ∀ c ∈ l, c ≠ '\\') : rmCmdAux RmState.n l = l := by
  induction l with
  | nil => rfl
  | cons c r ih =>
    have hc : ¬ c = '\\' := h c (List.mem_cons_self c r)
    have hr := ih (fun d hd => h d (List.mem_cons_of_mem c hd))
    simp only [rmCmdAux]
    rw [if_neg hc, hr]

lemma subBr_id (l : List Char) (h : ∀ c ∈ l, c ≠ '_') : subBr SubSt.n l = l := by
  induction l with
  | nil => rfl
  | cons c r ih =>
    have hc : ¬ c = '_' := h c (List.mem_cons_self c r)
    have hr := ih (fun d hd => h d (List.mem_cons_of_mem c hd))
    simp only [subBr]
    rw [if_neg hc, hr]

lemma subBareSubscript_id :
    ∀ (l : List Char), (∀ c ∈ l, c ≠ '_') → subBareSubscript l = l
  | [], _ => rfl
  | [_], _ => rfl
  | c :: d :: r, h => by
    have hc : ¬(c = '_' ∧ isDigitChar d) := fun e => h c (List.mem_cons_self c (d :: r)) e.1
    have hr := subBareSubscript_id (d :: r) (fun e he => h e (List.mem_cons_of_mem c he))
    simp only [subBareSubscript]
    rw [if_neg hc, hr]

lemma filter_id (p : Char → Bool) (l : List Char) (h : ∀ c ∈ l, p c = true) :
    l.filter p = l :=
  List.filter_eq_self.mpr h

lemma cleanEmphasis_id (l : List Char) (h : ∀ c ∈ l, isAllowed c = true) :
    cleanEmphasis l = l := by
  unfold cleanEmphasis
  rw [replacePairAll_id '*' '*' l (fun c hc => allowed_ne_star c (h c hc)),
    replacePairAll_id '_' '_' l (fun c hc => allowed_ne_underscore c (h c hc)),
    stripEnds_id isTickChar l (fun c hc => allowed_tick_false c (h c hc)),
    stripEnds_id isSpaceChar l (fun c hc => allowed_space_false c (h c hc))]

lemma cleanMath_id (l : List Char) (h : ∀ c ∈ l, isAllowed c = true) :
    cleanMath l = l := by
  have hd : '$' ∉ l := fun hm => allowed_ne_dollar '$' (h '$' hm) rfl
  unfold cleanMath
  rw [if_neg hd]

lemma cleanBraces_id (l : List Char) (h : ∀ c ∈ l, isAllowed c = true) :
    cleanBraces l = l := by
  refine filter_id _ l (fun c hc => ?_)
  rw [decide_eq_true (allowed_ne_lbrace c (h c hc)),
    decide_eq_true (allowed_ne_rbrace c (h c hc))]
  rfl

lemma cleanSpace_id (l : List Char) (h : ∀ c ∈ l, isAllowed c = true) :
    cleanSpace l = l := by
  refine filter_id _ l (fun c hc => ?_)
  rw [allowed_space_false c (h c hc)]
  rfl

lemma cleanKeepAllowed_id (l : List Char) (h : ∀ c ∈ l, isAllowed c = true) :
    cleanKeepAllowed l = l :=
  filter_id isAllowed l h

/-- On a string made only of allowed characters, the whole normalization
is the identity. -/
lemma cleanFormulaCandidate_fixed (l : List Char) (h : ∀ c ∈ l, isAllowed c = true) :
    cleanFormulaCandidate l = l := by
  have hstrip : stripEnds isSpaceChar l = l :=
    stripEnds_id isSpaceChar l (fun c hc => allowed_space_false c (h c hc))
  by_cases hl : l = []
  · subst hl; rfl
  · unfold cleanFormulaCandidate
    rw [hstrip, if_neg hl, cleanEmphasis_id l h, cleanMath_id l h]
    show cleanKeepAllowed (cleanSpace (cleanBraces (subBareSubscript (subBr SubSt.n
      (rmCmdAux RmState.n (cdAux CdSt.n l)))))) = l
    rw [cdAux_id l (fun c hc => allowed_ne_backslash c (h c hc)),
      rmCmdAux_id l (fun c hc => allowed_ne_backslash c (h c hc)),
      subBr_id l (fun c hc => allowed_ne_underscore c (h c hc)),
      subBareSubscript_id l (fun c hc => allowed_ne_underscore c (h c hc)),
      cleanBraces_id l h, cleanSpace_id l h, cleanKeepAllowed_id l h]

/-- Every character of a normalized candidate is allowed. -/
lemma cleanFormulaCandidate_allowed (s : List Char) :
    ∀ c ∈ cleanFormulaCandidate s, isAllowed c = true := by
  intro c hc
  unfold cleanFormulaCandidate cleanKeepAllowed at hc
  split at hc
  · simp at hc
  · exact (List.mem_filter.mp hc).2

/-- Claim C8: the normalization `_clean_formula_candidate` is idempotent:
applying it twice yields the same result as applying it once, for every
input string. -/
theorem clean_formula_candidate_idempotent (s : List Char) :
    cleanFormulaCandidate (cleanFormulaCandidate s) = cleanFormulaCandidate s :=
  cleanFormulaCandidate_fixed (cleanFormulaCandidate s) (cleanFormulaCandidate_allowed s)

/-! ## Invariants of `parse`: validity, freshness against history, no
duplicates -/

/-- What the acceptance filters guarantee of every accepted candidate. -/
def goodCand (history : List (List Char)) (s : List Char) : Prop :=
  (containsSub ['L', 'i'] s = true ∨ containsSub ['N', 'a'] s = true)
    ∧ 2 ≤ countElems s ∧ s ∉ history

/-- The invariant `parse` maintains on its `record` accumulator. -/
def parseInv (history : List (List Char)) (record : List (List Char)) : Prop :=
  (∀ s ∈ record, goodCand history s) ∧ record.Nodup

lemma candOK_inv (history record : List (List Char)) (cand : List Char)
    (h : parseInv history record) : parseInv history (candOK history record cand) := by
  unfold candOK
  split_ifs with h1 h2 h3 h4 h5
  · exact h
  · exact h
  · exact h
  · exact h
  · exact h
  · constructor
    · intro s hs
      rcases List.mem_append.mp hs with hs | hs
      · exact h.1 s hs
      · rcases List.mem_singleton.mp hs with rfl
        refine ⟨?_, Nat.le_of_not_lt h3, h4⟩
        cases hLi : containsSub ['L', 'i'] s with
        | true => exact Or.inl rfl
        | false =>
          cases hNa : containsSub ['N', 'a'] s with
          | true => exact Or.inr rfl
          | false => exact absurd ⟨hLi, hNa⟩ h2
    · rw [List.nodup_append]
      exact ⟨h.2, List.nodup_singleton cand, fun a ha hb => h5 ((List.mem_singleton.mp hb) ▸ ha)⟩

lemma foldl_inv {α β : Type} (f : β → α → β) (P : β → Prop)
    (hf : ∀ b a, P b → P (f b a)) : ∀ (l : List α) (b : β), P b → P (l.foldl f b)
  | [], _, hb => hb
  | a :: l, b, hb => foldl_inv f P hf l (f b a) (hf b a hb)

lemma parseLine_inv (history record : List (List Char)) (line : List Char)
    (h : parseInv history record) : parseInv history (parseLine history record line) := by
  unfold parseLine
  split_ifs with h1 h2 h3 h4
  · exact h
  · exact h
  · exact h
  · exact h
  · exact foldl_inv (acceptSeg history) (parseInv history)
      (fun b a hb => candOK_inv history b (cleanFormulaCandidate a) hb) _ record h

/-- Everything `parse` returns satisfies the acceptance invariant. -/
lemma parse_inv (raw : List Char) (history : List (List Char)) :
    parseInv history (parse raw history) := by
  unfold parse
  exact foldl_inv (parseLine history) (parseInv history)
    (fun b a hb => parseLine_inv history b a hb) _ []
    ⟨fun s hs => absurd hs (List.not_mem_nil s), List.nodup_nil⟩

/-! ## Claim theorems for the extractor -/

/-- Claim C1: on the scenario-one input, with an empty history, `parse`
returns exactly the one normalized formula; the reasoning bullet
contributes nothing. -/
theorem parse_scenario_one :
    parse scenarioOneInput [] = [scenarioOneFormula] := by
  rfl

/-- Claim C2: every extracted candidate contains `Li` or `Na` and at
least two element-like tokens, for every input and history; consequently
the anion-only input `* $PO_4$` extracts nothing. -/
theorem parse_candidates_li_na_two_elements :
    (∀ (raw : List Char) (history : List (List Char)), ∀ s ∈ parse raw history,
      (containsSub ['L', 'i'] s = true ∨ containsSub ['N', 'a'] s = true) ∧ 2 ≤ countElems s)
    ∧ parse scenarioAnionInput [] = [] := by
  constructor
  · intro raw history s hs
    have hg := (parse_inv raw history).1 s hs
    exact ⟨hg.1, hg.2.1⟩
  · rfl

/-- Claim C3: `parse` never returns duplicates nor a candidate of the
supplied history; consequently the scenario-one input with its formula
already in the history extracts nothing. -/
theorem parse_nodup_and_fresh :
    (∀ (raw : List Char) (history : List (List Char)),
      (parse raw history).Nodup ∧ ∀ s ∈ parse raw history, s ∉ history)
    ∧ parse scenarioOneInput [scenarioOneFormula] = [] := by
  constructor
  · intro raw history
    exact ⟨(parse_inv raw history).2, fun s hs => ((parse_inv raw history).1 s hs).2.2⟩
  · rfl

/-! ## Claim theorems for the generation loop -/

/-- Claim C5: inside one invocation of `optimize_batteries_chatgpt` the
history list given to `parse` is the empty list on every iteration (the
code initializes `history_battery_list = []` before the loop and never
appends to it), so the history-constrained parse and the empty-history
parse coincide, and the exclusion branch always embeds the empty list:
the loop is extensionally equal to the variant whose exclusion
instruction is built from the empty list. -/
theorem optimize_loop_exclusion_embeds_empty_list (responses : Nat → List Char)
    (messages : List (List Char)) (callIdx fuel : Nat) :
    loopAux responses [] messages callIdx fuel
      = loopAuxExclEmpty responses messages callIdx fuel := by
  induction fuel generalizing messages callIdx with
  | zero => rfl
  | succ n ih =>
    show (if parse (responses callIdx) [] = [] then _ else _)
      = (if parse (responses callIdx) [] = [] then _ else _)
    by_cases h : parse (responses callIdx) [] = []
    · rw [if_pos h, if_pos h, h]
      exact ih _ _
    · rw [if_neg h, if_neg h]

/-- Claim C4 (supporting evaluation for the code bug): a mock model that
keeps returning the same formula-bearing response is accepted on the
first call: the loop returns after exactly one model call with the
conversation unchanged, never running the exclusion branch, because the
history list it parses against is always empty. -/
theorem optimize_loop_accepts_first_response :
    optimize_batteries_chatgpt (fun _ => String.toList "* $LiFePO_4$") [String.toList "P"] 3
      = some ⟨1, String.toList "* $LiFePO_4$", [String.toList "LiFePO4"], [String.toList "P"]⟩ := by
  rfl

/-! ## Claim theorems for the decision engine -/

/-- Claim C6: with a valid task selector and a faultless oracle giving
baseline capacity `b` and candidate capacity `c`, `decide_one_pair`
returns the verdict `decide (c > b)`, true exactly when `c` strictly
exceeds `b`; in particular the verdict is `false` when `c = b`. -/
theorem decide_one_pair_verdict_iff (capacity : CapacityOracle)
    (inp out : List Char) (task_id : Int) (b c : Rat)
    (ht : task_id = 101 ∨ task_id = 102)
    (hb : capacity inp task_id = Except.ok b)
    (hc : capacity out task_id = Except.ok c) :
    decide_one_pair capacity inp out task_id = Except.ok (b, some c, decide (c > b))
    ∧ (c = b → decide_one_pair capacity inp out task_id = Except.ok (b, some c, false)) := by
  have hvalid : ¬(task_id ≠ 101 ∧ task_id ≠ 102) := by
    rcases ht with rfl | rfl <;> simp
  have hmain : decide_one_pair capacity inp out task_id
      = Except.ok (b, some c, decide (c > b)) := by
    unfold decide_one_pair
    rw [if_neg hvalid, hb, hc]
    show Except.ok (b, some c, decide (c > b * 1)) = Except.ok (b, some c, decide (c > b))
    rw [mul_one]
  refine ⟨hmain, fun he => ?_⟩
  subst he
  rw [hmain, decide_eq_false (lt_irrefl _)]

/-- Witness oracle for C6: baseline capacity 1, candidate capacity 2. -/
def capacityW : CapacityOracle :=
  fun f _ => if f = [] then Except.ok 1 else Except.ok 2

/-- Witness for C6 at a concrete oracle: capacity 1 baseline against
capacity 2 candidate gives verdict `decide (2 > 1)`. -/
theorem decide_one_pair_verdict_iff_witness :
    decide_one_pair capacityW [] ['a'] 101 = Except.ok (1, some 2, decide ((2 : Rat) > 1)) :=
  (decide_one_pair_verdict_iff capacityW [] ['a'] 101 1 2 (Or.inl rfl) rfl rfl).1

/-- Claim C7: with a valid task selector and a faultless baseline of
capacity `b`, a fault on a candidate is caught by `decide_one_pair`
(capacity `none`, verdict `false`), and `decide_pairs` never propagates
it: it returns one record per candidate, in input order, each computed
independently by `pairRecord`. -/
theorem decide_pairs_fault_isolation (capacity : CapacityOracle)
    (inp : List Char) (outs : List (List Char)) (task_id : Int) (b : Rat)
    (ht : task_id = 101 ∨ task_id = 102)
    (hb : capacity inp task_id = Except.ok b) :
    (∀ o, capacity o task_id = Except.error () →
      decide_one_pair capacity inp o task_id = Except.ok (b, none, false))
    ∧ decide_pairs capacity inp outs task_id
      = Except.ok (outs.map (pairRecord capacity task_id b)) := by
  have hvalid : ¬(task_id ≠ 101 ∧ task_id ≠ 102) := by
    rcases ht with rfl | rfl <;> simp
  have hone : ∀ o, decide_one_pair capacity inp o task_id
      = Except.ok (b, (pairRecord capacity task_id b o).2) := by
    intro o
    unfold decide_one_pair pairRecord
    rw [if_neg hvalid, hb]
    cases capacity o task_id <;> rfl
  constructor
  · intro o he
    rw [hone o]
    unfold pairRecord
    rw [he]
  · induction outs with
    | nil => rfl
    | cons o rest ih =>
      have hrec : (o, (pairRecord capacity task_id b o).2.1, (pairRecord capacity task_id b o).2.2)
          = pairRecord capacity task_id b o := by
        unfold pairRecord
        cases capacity o task_id <;> rfl
      show (match decide_one_pair capacity inp o task_id with
        | Except.error e => Except.error e
        | Except.ok (_, output_value, answer) =>
          match decide_pairs capacity inp rest task_id with
          | Except.error e => Except.error e
          | Except.ok l => Except.ok ((o, output_value, answer) :: l))
        = Except.ok ((o :: rest).map (pairRecord capacity task_id b))
      rw [hone o, ih]
      show Except.ok ((o, (pairRecord capacity task_id b o).2.1,
          (pairRecord capacity task_id b o).2.2) :: rest.map (pairRecord capacity task_id b))
        = Except.ok ((o :: rest).map (pairRecord capacity task_id b))
      rw [hrec]
      rfl

/-- Witness oracle for C7: faults on the candidate `['x']`, capacity 3
elsewhere. -/
def capacityF : CapacityOracle :=
  fun f _ => if f = ['x'] then Except.error () else Except.ok 3

/-- Witness for C7 at a concrete oracle: the faulting candidate gets
capacity `none` and verdict `false`, and the batch over a good and a
faulting candidate still yields one record per candidate. -/
theorem decide_pairs_fault_isolation_witness :
    decide_one_pair capacityF [] ['x'] 101 = Except.ok (3, none, false)
    ∧ decide_pairs capacityF [] [['g'], ['x']] 101
      = Except.ok ([['g'], ['x']].map (pairRecord capacityF 101 3)) :=
  ⟨(decide_pairs_fault_isolation capacityF [] [['g'], ['x']] 101 3 (Or.inl rfl) rfl).1 ['x'] rfl,
   (decide_pairs_fault_isolation capacityF [] [['g'], ['x']] 101 3 (Or.inl rfl) rfl).2⟩

/-! ## Claim theorem for the request shape -/

/-- Claim C9 (supporting evaluation for the code bug): the selector
`chatgpt_3.5` is resolved to the model id `gpt-3.5-turbo` before
`optimize_batteries_chatgpt` compares its `model` argument against the
nickname `chatgpt_3.5`, so the issued request omits `frequency_penalty`
even for the one selector the parameter was written for. -/
theorem chatgpt35_request_omits_frequency_penalty :
    optimize_batteries_request (String.toList "chatgpt_3.5")
      = some ⟨String.toList "gpt-3.5-turbo", false⟩ := by
  rfl

/-! ## Claim theorem for the remote novelty lookup -/

/-- Claim C10: `MP_search` returns `false` (and, being a total function
of the lookup outcome, cannot raise) whenever the lookup faults, and
returns `true` exactly when the lookup succeeds with at least one
matching record. -/
theorem mp_search_fault_reports_false (lookup : List Char → Except Unit (List Unit))
    (formula : List Char) :
    (∀ e, lookup formula = Except.error e → MP_search lookup formula = false)
    ∧ (MP_search lookup formula = true
      ↔ ∃ docs, lookup formula = Except.ok docs ∧ 1 ≤ docs.length) := by
  constructor
  · intro e he
    unfold MP_search
    rw [he]
  · unfold MP_search
    cases hl : lookup formula with
    | error e => simp
    | ok docs => simp
